import Mathlib

/-!
Verification model of `canvasupdater.cpp` (digital-logic-design-canvas).

The file shallowly embeds the core of the program:
  * the Date Engine (`addDays`, modelling `tm_mday += days; mktime(&baseDate)`),
  * the Template Formatter (`formatDate` with its eight ordered token passes),
  * the Directive Scanner (the `while` loop of `processFile`, lines 225-288),
together with the string primitives they use (`std::string::find`, `rfind`,
`substr`, `replace`, `std::stoi`, the trim of quote/underscore/paren chars).

Buffers are `List Char`; positions are `Nat` indices; C `int` values that can
overflow only inside `std::stoi` are handled there by the explicit
[-2^31, 2^31-1] range check that `std::stoi` performs (it throws
`out_of_range` beyond it).  The unbounded `while` loops of the source are
modelled by fuel-indexed iteration (`scanRun fuel`): a run that returns
`none` for every fuel is a non-terminating execution of the source loop.
-/

/-! ### String primitives -/

/-- Model of `std::string::find(pat, start)`: the smallest index `i ≥ start`
with `i + pat.length ≤ s.length` at which `pat` occurs in `s`.  The fuel
argument only bounds the linear search; `findFrom` below supplies enough. -/
def findFromAux (pat s : List Char) : Nat → Nat → Option Nat
  | 0, _ => none
  | fuel + 1, start =>
    if s.length < start + pat.length then none
    else if pat.isPrefixOf (s.drop start) then some start
    else findFromAux pat s fuel (start + 1)

/-- Model of `std::string::find(pat, start)` (returns `none` for `npos`). -/
def findFrom (pat s : List Char) (start : Nat) : Option Nat :=
  findFromAux pat s (s.length + 1 - start) start

/-- Model of `std::string::rfind(c)`: index of the last occurrence of `c`. -/
def rfindChar (c : Char) : List Char → Option Nat
  | [] => none
  | a :: rest =>
    match rfindChar c rest with
    | some i => some (i + 1)
    | none => if a = c then some 0 else none

/-- Decimal digits of a natural number, most significant first
(fuel-driven so that it evaluates in the kernel). -/
def natToDecAux : Nat → Nat → List Char → List Char
  | 0, _, acc => acc
  | fuel + 1, n, acc =>
    if n < 10 then Char.ofNat (48 + n) :: acc
    else natToDecAux fuel (n / 10) (Char.ofNat (48 + n % 10) :: acc)

/-- Decimal rendering of a natural number. -/
def natToDec (n : Nat) : List Char := natToDecAux (n + 1) n []

/-- Model of `std::to_string` on a C `int` value. -/
def intToDec (n : Int) : List Char :=
  if n < 0 then '-' :: natToDec n.natAbs else natToDec n.natAbs

/-- Characters treated as whitespace by `strtol` (C `isspace`). -/
def isSpaceChar (c : Char) : Bool :=
  c == ' ' || c == '\t' || c == '\n' || c == '\x0b' || c == '\x0c' || c == '\r'

/-- Value of a digit string, most significant first (as read by `strtol`). -/
def digitsToNat (ds : List Char) : Nat :=
  ds.foldl (fun a c => a * 10 + (c.toNat - 48)) 0

/-- Model of `std::stoi`: skip C whitespace, read an optional sign, then a
nonempty maximal run of decimal digits (trailing characters are ignored).
`none` models the exception path: either no digits could be read
(`invalid_argument`) or the value does not fit a 32-bit `int`
(`out_of_range`).  Both exceptions are caught by the same handler in
`processFile`. -/
def stoiModel (s : List Char) : Option Int :=
  let s1 := s.dropWhile isSpaceChar
  let sgnNeg : Bool :=
    match s1.head? with
    | some c => c == '-'
    | none => false
  let hasSign : Bool :=
    match s1.head? with
    | some c => c == '-' || c == '+'
    | none => false
  let s2 := if hasSign then s1.tail else s1
  let ds := s2.takeWhile Char.isDigit
  if ds.isEmpty then none
  else
    let v : Int := (if sgnNeg then -1 else 1) * (digitsToNat ds : Int)
    if v < -(2 ^ 31) ∨ 2 ^ 31 - 1 < v then none else some v

/-- Characters trimmed from both ends of the format template
(`" \t\n\r\"_()"`, canvasupdater.cpp lines 273-274). -/
def trimSet : List Char := " \t\n\r\"_()".toList

/-- Model of the two `erase`/`find_first_not_of`/`find_last_not_of` calls
that strip surrounding whitespace, quotes, underscores and parentheses. -/
def trimFormat (s : List Char) : List Char :=
  ((s.dropWhile (fun c => trimSet.contains c)).reverse.dropWhile
    (fun c => trimSet.contains c)).reverse

/-! ### Date Engine -/

/-- Normalized calendar date as produced by `mktime`: `year` is the full year
(`tm_year + 1900`), `month` is 1-12 (`tm_mon + 1`), `day` is `tm_mday`.
`tm_wday` is a derived field, recomputed by `wdayOf` below. -/
structure Date where
  year : Int
  month : Int
  day : Int
deriving DecidableEq

/-- Gregorian leap-year rule used by `mktime` (C truncating `%` as in the
C library's `__isleap`). -/
def isLeapYear (y : Int) : Bool :=
  Int.tmod y 4 == 0 && (!(Int.tmod y 100 == 0) || Int.tmod y 400 == 0)

/-- Length of a month in the Gregorian calendar. -/
def daysInMonth (y m : Int) : Int :=
  if m = 2 then (if isLeapYear y then 29 else 28)
  else if m = 4 ∨ m = 6 ∨ m = 9 ∨ m = 11 then 30
  else 31

/-- Year component of the month preceding `(y, m)`. -/
def prevY (y m : Int) : Int := if m = 1 then y - 1 else y

/-- Month component of the month preceding month `m`. -/
def prevM (m : Int) : Int := if m = 1 then 12 else m - 1

/-- Year component of the month following `(y, m)`. -/
def nextY (y m : Int) : Int := if m = 12 then y + 1 else y

/-- Month component of the month following month `m`. -/
def nextM (m : Int) : Int := if m = 12 then 1 else m + 1

/-- Day-of-month normalization performed by `mktime`: an out-of-range
`tm_mday` is rolled into the preceding/following months.  Fuel-driven so
that it computes in the kernel; `normalizeDate` supplies sufficient fuel. -/
def normAux : Nat → Int → Int → Int → Date
  | 0, y, m, d => ⟨y, m, d⟩
  | fuel + 1, y, m, d =>
    if d < 1 then
      normAux fuel (prevY y m) (prevM m) (d + daysInMonth (prevY y m) (prevM m))
    else if daysInMonth y m < d then
      normAux fuel (nextY y m) (nextM m) (d - daysInMonth y m)
    else ⟨y, m, d⟩

/-- Model of `mktime` normalization of a date whose day-of-month may be out
of range (the only field `addDays` perturbs). -/
def normalizeDate (y m d : Int) : Date := normAux (d.natAbs + 35) y m d

/-- Model of `addDays` (canvasupdater.cpp lines 130-136):
`baseDate.tm_mday += days; mktime(&baseDate)`. -/
def addDays (baseDate : Date) (days : Int) : Date :=
  normalizeDate baseDate.year baseDate.month (baseDate.day + days)

/-- Day of week (0 = Sunday .. 6 = Saturday) of a normalized date, as
`mktime` stores into `tm_wday` (Sakamoto's method, floor division). -/
def wdayOf (y m d : Int) : Int :=
  let t : List Int := [0, 3, 2, 5, 0, 3, 5, 1, 4, 6, 2, 4]
  let y' := if m < 3 then y - 1 else y
  Int.emod (y' + Int.fdiv y' 4 - Int.fdiv y' 100 + Int.fdiv y' 400 +
    t.getD (m - 1).toNat 0 + d) 7

/-- A date the Date Engine regards as normalized: month in 1-12 and day in
range for that month. -/
def ValidDate (dt : Date) : Prop :=
  1 ≤ dt.month ∧ dt.month ≤ 12 ∧ 1 ≤ dt.day ∧ dt.day ≤ daysInMonth dt.year dt.month

instance (dt : Date) : Decidable (ValidDate dt) := by
  unfold ValidDate; infer_instance

/-! ### Template Formatter -/

/-- Full month names, indexed by `tm_mon` (0-11). -/
def monthNames : List (List Char) :=
  ["January", "February", "March", "April", "May", "June", "July", "August",
   "September", "October", "November", "December"].map String.toList

/-- Three-letter month abbreviations, indexed by `tm_mon`. -/
def monthAbbrs : List (List Char) :=
  ["Jan", "Feb", "Mar", "Apr", "May", "Jun", "Jul", "Aug", "Sep", "Oct",
   "Nov", "Dec"].map String.toList

/-- Full weekday names, indexed by `tm_wday` (0 = Sunday). -/
def dayNames : List (List Char) :=
  ["Sunday", "Monday", "Tuesday", "Wednesday", "Thursday", "Friday",
   "Saturday"].map String.toList

/-- Three-letter weekday abbreviations, indexed by `tm_wday`. -/
def dayAbbrs : List (List Char) :=
  ["Sun", "Mon", "Tue", "Wed", "Thu", "Fri", "Sat"].map String.toList

/-- One pass of the replacement loop of `formatDate`: repeatedly find `pat`
from the cursor on, splice in `to`, and advance the cursor to just past the
inserted text (`start_pos += to.length()`).  Fuel bounds the iteration; each
iteration strictly shrinks `s.length - start`, so `s.length + 1` iterations
always suffice and `replaceAll` supplies that. -/
def replaceAllAux (pat toStr : List Char) : Nat → List Char → Nat → List Char
  | 0, s, _ => s
  | fuel + 1, s, start =>
    match findFrom pat s start with
    | none => s
    | some p =>
      replaceAllAux pat toStr fuel
        (s.take p ++ toStr ++ s.drop (p + pat.length)) (p + toStr.length)

/-- Model of the `while ((start_pos = format.find(from, start_pos)) != npos)`
replacement loop applied to one token. -/
def replaceAll (pat toStr s : List Char) : List Char :=
  replaceAllAux pat toStr (s.length + 1) s 0

/-- The eight `(token, value)` pairs of `formatDate`, in the exact order the
source lists them ("LONGEST first"). -/
def tokenValues (date : Date) : List (List Char × List Char) :=
  let yearStr := intToDec date.year
  let monthFullNameStr := monthNames.getD (date.month - 1).toNat []
  let monthAbbrStr := monthAbbrs.getD (date.month - 1).toNat []
  let wday := wdayOf date.year date.month date.day
  let dayFullNameStr := dayNames.getD wday.toNat []
  let dayNameAbbrStr := dayAbbrs.getD wday.toNat []
  let dayStr := intToDec date.day
  let dayPaddedStr := if dayStr.length < 2 then '0' :: dayStr else dayStr
  [("YYYY".toList, yearStr),
   ("MM".toList, monthFullNameStr),
   ("NN".toList, dayFullNameStr),
   ("DD".toList, dayPaddedStr),
   ("Y".toList, yearStr),
   ("M".toList, monthAbbrStr),
   ("N".toList, dayNameAbbrStr),
   ("D".toList, dayStr)]

/-- Model of `formatDate` (canvasupdater.cpp lines 144-187): apply the eight
replacement passes to the template, in order. -/
def formatDate (date : Date) (format : List Char) : List Char :=
  (tokenValues date).foldl (fun acc pr => replaceAll pr.1 pr.2 acc) format

/-! ### Directive Scanner -/

/-- The literal marker text `"DateReplace("`. -/
def markerStr : List Char := "DateReplace(".toList

/-- Render one directive: compute `finalDayOffset = dayOffset - startIndex`,
add it to the start date, and format with the trimmed template
(canvasupdater.cpp lines 272-281). -/
def renderDirective (startDate : Date) (startIndex : Int)
    (formatStr : List Char) (dayOffset : Int) : List Char :=
  formatDate (addDays startDate (dayOffset - startIndex)) (trimFormat formatStr)

/-- Argument handling of one directive occurrence (lines 241-281): split the
raw argument text on the last comma; with no comma the whole text is the
template and the day number defaults to `startIndex`; otherwise the day part
must parse with `std::stoi`, and `none` models the caught exception
(the warning-and-skip path). -/
def directiveResult (startDate : Date) (startIndex : Int)
    (argsStr : List Char) : Option (List Char) :=
  match rfindChar ',' argsStr with
  | none => some (renderDirective startDate startIndex argsStr startIndex)
  | some commaPos =>
    let formatStr := argsStr.take commaPos
    let dayOffsetStr := argsStr.drop (commaPos + 1)
    match stoiModel dayOffsetStr with
    | none => none
    | some dayOffset => some (renderDirective startDate startIndex formatStr dayOffset)

/-- Result of one iteration of the `while` loop of `processFile`: either the
loop exits (`done`, carrying the final buffer and the `modified` flag), or it
continues with an updated buffer, search position and flag. -/
inductive StepRes where
  | done (content : List Char) (modified : Bool)
  | cont (content : List Char) (searchPos : Nat) (modified : Bool)
deriving DecidableEq

/-- One iteration of the scan loop (canvasupdater.cpp lines 225-288).
`searchPos` is assigned the found marker position by the loop condition
itself, so every `continue` that does not reassign it resumes from the
marker position `pos`.  `modified` is set as soon as a marker is found,
before any validity check. -/
def scanStep (startDate : Date) (startIndex : Int) (content : List Char)
    (searchPos : Nat) (modified : Bool) : StepRes :=
  match findFrom markerStr content searchPos with
  | none => .done content modified
  | some pos =>
    let openParenPos := pos + markerStr.length
    match findFrom [')'] content openParenPos with
    | none => .cont content pos true
    | some closeParenPos =>
      match findFrom ['>'] content closeParenPos with
      | none => .cont content pos true
      | some gtPos =>
        let replaceStartPos := gtPos + 1
        match findFrom ['<'] content replaceStartPos with
        | none => .cont content pos true
        | some replaceEndPos =>
          let argsStr := (content.drop openParenPos).take (closeParenPos - openParenPos)
          match directiveResult startDate startIndex argsStr with
          | none => .cont content closeParenPos true
          | some newDateStr =>
            .cont (content.take replaceStartPos ++ newDateStr ++ content.drop replaceEndPos)
              (replaceStartPos + newDateStr.length) true

/-- Iterate the scan loop.  `none` means the loop had not exited after `fuel`
iterations; a loop that returns `none` for every fuel never terminates. -/
def scanRun (startDate : Date) (startIndex : Int) :
    Nat → List Char → Nat → Bool → Option (List Char × Bool)
  | 0, _, _, _ => none
  | fuel + 1, content, searchPos, modified =>
    match scanStep startDate startIndex content searchPos modified with
    | .done c m => some (c, m)
    | .cont c sp m => scanRun startDate startIndex fuel c sp m

/-- The in-memory part of `processFile`: run the scan loop from position 0
with `modified = false`.  The returned Bool is the `modified` flag; the file
is rewritten (line 290, `if (modified)`) exactly when it is `true`. -/
def processContent (startDate : Date) (startIndex : Int)
    (content : List Char) (fuel : Nat) : Option (List Char × Bool) :=
  scanRun startDate startIndex fuel content 0 false

/-- Decidable check that the marker occurs somewhere in the buffer. -/
def hasMarkerOccurrence (s : List Char) : Bool :=
  (List.range (s.length + 1)).any (fun i => markerStr.isPrefixOf (s.drop i))

/-! ### Lemmas about the string primitives -/

theorem findFromAux_some {pat s : List Char} :
    ∀ {fuel start i : Nat}, findFromAux pat s fuel start = some i →
      start ≤ i ∧ i + pat.length ≤ s.length ∧ pat.isPrefixOf (s.drop i) = true := by
  intro fuel
  induction fuel with
  | zero => intro start i h; simp [findFromAux] at h
  | succ f ih =>
    intro start i h
    unfold findFromAux at h
    split at h
    · exact absurd h (by simp)
    · split at h
      · cases h
        exact ⟨Nat.le_refl _, by omega, by assumption⟩
      · have := ih h
        exact ⟨by omega, this.2.1, this.2.2⟩

theorem findFrom_some {pat s : List Char} {start i : Nat}
    (h : findFrom pat s start = some i) :
    start ≤ i ∧ i + pat.length ≤ s.length ∧ pat.isPrefixOf (s.drop i) = true :=
  findFromAux_some h

theorem rfindChar_eq_none {c : Char} {s : List Char} (h : c ∉ s) :
    rfindChar c s = none := by
  induction s with
  | nil => rfl
  | cons a rest ih =>
    have h1 : c ∉ rest := fun hm => h (List.mem_cons_of_mem _ hm)
    have h2 : a ≠ c := fun he => h (he ▸ List.mem_cons_self a rest)
    simp [rfindChar, ih h1, h2]

theorem isPrefixOf_head {a : Char} {t l : List Char}
    (h : List.isPrefixOf (a :: t) l = true) : l[0]? = some a := by
  cases l with
  | nil => simp [List.isPrefixOf] at h
  | cons b bs =>
    simp [List.isPrefixOf] at h
    simp [h.1]

theorem hasMarkerOccurrence_of_find {s : List Char} {start i : Nat}
    (h : findFrom markerStr s start = some i) : hasMarkerOccurrence s = true := by
  obtain ⟨-, h2, h3⟩ := findFrom_some h
  have hlen : markerStr.length = 12 := by decide
  refine List.any_eq_true.mpr ⟨i, List.mem_range.mpr (by omega), ?_⟩
  simpa using h3

/-! ### Lemmas about the scan loop -/

theorem scanStep_done_modified {startDate : Date} {startIndex : Int}
    {content : List Char} {searchPos : Nat} {modified : Bool}
    {c : List Char} {m : Bool}
    (h : scanStep startDate startIndex content searchPos modified = .done c m) :
    c = content ∧ m = modified := by
  unfold scanStep at h
  split at h
  · cases h; exact ⟨rfl, rfl⟩
  · dsimp only at h
    split at h <;>
    · first
      | (cases h)
      | (split at h <;> first
          | (cases h)
          | (split at h <;> first
              | (cases h)
              | (split at h <;> cases h)))

theorem scanStep_cont_modified {startDate : Date} {startIndex : Int}
    {content : List Char} {searchPos : Nat} {modified : Bool}
    {c : List Char} {sp : Nat} {m : Bool}
    (h : scanStep startDate startIndex content searchPos modified = .cont c sp m) :
    m = true := by
  unfold scanStep at h
  split at h
  · cases h
  · dsimp only at h
    split at h
    · cases h; rfl
    · split at h
      · cases h; rfl
      · split at h
        · cases h; rfl
        · split at h
          · cases h; rfl
          · cases h; rfl

theorem scanRun_modified_invariant {startDate : Date} {startIndex : Int} :
    ∀ {fuel : Nat} {content : List Char} {searchPos : Nat}
      {c : List Char} {m : Bool},
      scanRun startDate startIndex fuel content searchPos true = some (c, m) →
      m = true := by
  intro fuel
  induction fuel with
  | zero => intro _ _ _ _ h; simp [scanRun] at h
  | succ f ih =>
    intro content searchPos c m h
    unfold scanRun at h
    split at h
    · rename_i c2 m2 heq
      cases h
      exact (scanStep_done_modified heq).2
    · rename_i c2 sp2 m2 heq
      have hm2 : m2 = true := scanStep_cont_modified heq
      subst hm2
      exact ih h

theorem scanRun_stuck {startDate : Date} {startIndex : Int} {c : List Char}
    (h : ∀ md : Bool, scanStep startDate startIndex c 0 md = .cont c 0 true) :
    ∀ (fuel : Nat) (md : Bool), scanRun startDate startIndex fuel c 0 md = none := by
  intro fuel
  induction fuel with
  | zero => intro md; rfl
  | succ f ih =>
    intro md
    unfold scanRun
    rw [h md]
    exact ih true

/-! ### Lemmas about the Date Engine -/

theorem daysInMonth_ge (y m : Int) : 28 ≤ daysInMonth y m := by
  unfold daysInMonth
  split
  · split <;> omega
  · split <;> omega

theorem nextM_bounds {m : Int} (h1 : 1 ≤ m) (h2 : m ≤ 12) :
    1 ≤ nextM m ∧ nextM m ≤ 12 := by
  unfold nextM; split <;> omega

theorem prevM_bounds {m : Int} (h1 : 1 ≤ m) (h2 : m ≤ 12) :
    1 ≤ prevM m ∧ prevM m ≤ 12 := by
  unfold prevM; split <;> omega

theorem prevY_nextYM {y m : Int} (h1 : 1 ≤ m) (h2 : m ≤ 12) :
    prevY (nextY y m) (nextM m) = y := by
  unfold prevY nextY nextM
  split <;> split <;> omega

theorem prevM_nextM {m : Int} (h1 : 1 ≤ m) (h2 : m ≤ 12) :
    prevM (nextM m) = m := by
  unfold prevM nextM
  split <;> split <;> omega

theorem nextY_prevYM {y m : Int} (h1 : 1 ≤ m) (h2 : m ≤ 12) :
    nextY (prevY y m) (prevM m) = y := by
  unfold nextY prevY prevM
  split <;> split <;> omega

theorem nextM_prevM {m : Int} (h1 : 1 ≤ m) (h2 : m ≤ 12) :
    nextM (prevM m) = m := by
  unfold nextM prevM
  split <;> split <;> omega

/-- Big-step graph of `mktime` day-of-month normalization: `NormX y m d r`
holds when rolling the (possibly out-of-range) day `d` of month `(y, m)`
into adjacent months yields the normalized date `r`. -/
inductive NormX : Int → Int → Int → Date → Prop where
  | inRange (y m d : Int) : 1 ≤ d → d ≤ daysInMonth y m → NormX y m d ⟨y, m, d⟩
  | borrow (y m d : Int) (r : Date) : d < 1 →
      NormX (prevY y m) (prevM m) (d + daysInMonth (prevY y m) (prevM m)) r →
      NormX y m d r
  | carry (y m d : Int) (r : Date) : daysInMonth y m < d →
      NormX (nextY y m) (nextM m) (d - daysInMonth y m) r →
      NormX y m d r

theorem normX_det {y m d : Int} {r : Date} (h : NormX y m d r) :
    ∀ {r' : Date}, NormX y m d r' → r = r' := by
  induction h with
  | inRange y m d hd1 hd2 =>
    intro r' h'
    cases h' with
    | inRange => rfl
    | borrow _ _ _ _ hlt _ => omega
    | carry _ _ _ _ hgt _ => omega
  | borrow y m d r hlt hin ih =>
    intro r' h'
    cases h' with
    | inRange _ _ _ hd1 hd2 => omega
    | borrow _ _ _ _ _ hin' => exact ih hin'
    | carry _ _ _ _ hgt _ =>
      have := daysInMonth_ge y m; omega
  | carry y m d r hgt hin ih =>
    intro r' h'
    cases h' with
    | inRange _ _ _ hd1 hd2 => omega
    | borrow _ _ _ _ hlt _ =>
      have := daysInMonth_ge y m; omega
    | carry _ _ _ _ _ hin' => exact ih hin'

theorem normAux_inRange {y m d : Int} {fuel : Nat}
    (hd1 : 1 ≤ d) (hd2 : d ≤ daysInMonth y m) :
    normAux (fuel + 1) y m d = ⟨y, m, d⟩ := by
  unfold normAux
  rw [if_neg (by omega), if_neg (by omega)]

theorem normX_total :
    ∀ (fuel : Nat) (y m d : Int), d.natAbs + 33 ≤ fuel →
      NormX y m d (normAux fuel y m d) := by
  intro fuel
  induction fuel with
  | zero => intro y m d hf; omega
  | succ f ih =>
    intro y m d hf
    unfold normAux
    by_cases hlt : d < 1
    · rw [if_pos hlt]
      have hge : 28 ≤ daysInMonth (prevY y m) (prevM m) := daysInMonth_ge _ _
      by_cases hup : d + daysInMonth (prevY y m) (prevM m) < 1
      · exact NormX.borrow _ _ _ _ hlt (ih _ _ _ (by omega))
      · have h1 : 1 ≤ d + daysInMonth (prevY y m) (prevM m) := by omega
        have h2 : d + daysInMonth (prevY y m) (prevM m) ≤
            daysInMonth (prevY y m) (prevM m) := by omega
        obtain ⟨f', rfl⟩ : ∃ k, f = k + 1 := ⟨f - 1, by omega⟩
        rw [normAux_inRange h1 h2]
        exact NormX.borrow _ _ _ _ hlt (NormX.inRange _ _ _ h1 h2)
    · rw [if_neg hlt]
      by_cases hgt : daysInMonth y m < d
      · rw [if_pos hgt]
        have hge : 28 ≤ daysInMonth y m := daysInMonth_ge _ _
        exact NormX.carry _ _ _ _ hgt (ih _ _ _ (by omega))
      · rw [if_neg hgt]
        exact NormX.inRange _ _ _ (by omega) (by omega)

theorem normX_normalizeDate (y m d : Int) :
    NormX y m d (normalizeDate y m d) :=
  normX_total _ y m d (by omega)

/-- Re-expressing a day offset relative to the following month does not
change the normalized result. -/
theorem normX_stepNext {y m : Int} (h1 : 1 ≤ m) (h2 : m ≤ 12)
    (e : Int) (r : Date) :
    NormX y m e r ↔ NormX (nextY y m) (nextM m) (e - daysInMonth y m) r := by
  have hge : 28 ≤ daysInMonth y m := daysInMonth_ge y m
  constructor
  · intro h
    cases h with
    | inRange _ _ _ he1 he2 =>
      refine NormX.borrow _ _ _ _ (by omega) ?_
      rw [prevY_nextYM h1 h2, prevM_nextM h1 h2]
      have harith : e - daysInMonth y m + daysInMonth y m = e := by ring
      rw [harith]
      exact NormX.inRange _ _ _ he1 he2
    | borrow _ _ _ _ hlt hin =>
      refine NormX.borrow _ _ _ _ (by omega) ?_
      rw [prevY_nextYM h1 h2, prevM_nextM h1 h2]
      have harith : e - daysInMonth y m + daysInMonth y m = e := by ring
      rw [harith]
      exact NormX.borrow _ _ _ _ hlt hin
    | carry _ _ _ _ hgt hin => exact hin
  · intro k
    by_cases hgt : daysInMonth y m < e
    · exact NormX.carry _ _ _ _ hgt k
    · cases k with
      | inRange _ _ _ he1 he2 => omega
      | carry _ _ _ _ hgt' hin =>
        have := daysInMonth_ge (nextY y m) (nextM m); omega
      | borrow _ _ _ _ hlt hin =>
        rw [prevY_nextYM h1 h2, prevM_nextM h1 h2] at hin
        have harith : e - daysInMonth y m + daysInMonth y m = e := by ring
        rw [harith] at hin
        exact hin

/-- Shifting the initial day offset by `k` before normalizing is the same as
shifting the normalized result's day by `k` and normalizing again. -/
theorem normX_shift {y m d : Int} {r : Date} (h : NormX y m d r) :
    1 ≤ m → m ≤ 12 → ∀ (k : Int) (r' : Date),
      (NormX r.year r.month (r.day + k) r' ↔ NormX y m (d + k) r') := by
  induction h with
  | inRange y m d hd1 hd2 =>
    intro _ _ k r'
    exact Iff.rfl
  | borrow y m d r hlt hin ih =>
    intro hm1 hm2 k r'
    have hpb := prevM_bounds hm1 hm2
    rw [ih hpb.1 hpb.2 k r']
    have hs := normX_stepNext (y := prevY y m) hpb.1 hpb.2
      (d + daysInMonth (prevY y m) (prevM m) + k) r'
    rw [nextY_prevYM hm1 hm2, nextM_prevM hm1 hm2] at hs
    have harith : d + daysInMonth (prevY y m) (prevM m) + k -
        daysInMonth (prevY y m) (prevM m) = d + k := by ring
    rw [harith] at hs
    exact hs
  | carry y m d r hgt hin ih =>
    intro hm1 hm2 k r'
    have hnb := nextM_bounds hm1 hm2
    rw [ih hnb.1 hnb.2 k r']
    have hs := normX_stepNext (y := y) hm1 hm2 (d + k) r'
    rw [hs]
    have harith : d - daysInMonth y m + k = d + k - daysInMonth y m := by ring
    rw [harith]

theorem addDays_zero_of_valid {dt : Date} (h : ValidDate dt) : addDays dt 0 = dt := by
  obtain ⟨hm1, hm2, hd1, hd2⟩ := h
  have H1 : NormX dt.year dt.month (dt.day + 0) (addDays dt 0) :=
    normX_normalizeDate _ _ _
  have H0 : NormX dt.year dt.month (dt.day + 0) dt := by
    have h0 := NormX.inRange dt.year dt.month dt.day hd1 hd2
    rw [add_zero]
    exact h0
  exact normX_det H1 H0

/-- Branch characterization: no marker found means the loop exits. -/
theorem scanStep_eq_done {startDate : Date} {startIndex : Int}
    {content : List Char} {searchPos : Nat} {modified : Bool}
    (h1 : findFrom markerStr content searchPos = none) :
    scanStep startDate startIndex content searchPos modified =
      .done content modified := by
  unfold scanStep
  rw [h1]

/-- Branch characterization: marker found but no `)` after it; the
`continue` resumes from the marker position `pos` itself. -/
theorem scanStep_eq_cont_noParen {startDate : Date} {startIndex : Int}
    {content : List Char} (searchPos pos : Nat) {modified : Bool}
    (h1 : findFrom markerStr content searchPos = some pos)
    (h2 : findFrom [')'] content (pos + markerStr.length) = none) :
    scanStep startDate startIndex content searchPos modified =
      .cont content pos true := by
  unfold scanStep
  rw [h1]
  dsimp only
  rw [h2]

/-- Branch characterization: `)` found but no `>` after it. -/
theorem scanStep_eq_cont_noGt {startDate : Date} {startIndex : Int}
    {content : List Char} (searchPos pos closeParenPos : Nat) {modified : Bool}
    (h1 : findFrom markerStr content searchPos = some pos)
    (h2 : findFrom [')'] content (pos + markerStr.length) = some closeParenPos)
    (h3 : findFrom ['>'] content closeParenPos = none) :
    scanStep startDate startIndex content searchPos modified =
      .cont content pos true := by
  unfold scanStep
  rw [h1]
  dsimp only
  rw [h2]
  dsimp only
  rw [h3]

/-- Branch characterization: `>` found but no `<` after it. -/
theorem scanStep_eq_cont_noLt {startDate : Date} {startIndex : Int}
    {content : List Char} (searchPos pos closeParenPos gtPos : Nat)
    {modified : Bool}
    (h1 : findFrom markerStr content searchPos = some pos)
    (h2 : findFrom [')'] content (pos + markerStr.length) = some closeParenPos)
    (h3 : findFrom ['>'] content closeParenPos = some gtPos)
    (h4 : findFrom ['<'] content (gtPos + 1) = none) :
    scanStep startDate startIndex content searchPos modified =
      .cont content pos true := by
  unfold scanStep
  rw [h1]
  dsimp only
  rw [h2]
  dsimp only
  rw [h3]
  dsimp only
  rw [h4]

/-- Branch characterization: all delimiters found but the day number fails
to parse; the scan resumes from the closing parenthesis. -/
theorem scanStep_eq_cont_parseFail {startDate : Date} {startIndex : Int}
    {content : List Char} (searchPos pos closeParenPos gtPos ltPos : Nat)
    {modified : Bool}
    (h1 : findFrom markerStr content searchPos = some pos)
    (h2 : findFrom [')'] content (pos + markerStr.length) = some closeParenPos)
    (h3 : findFrom ['>'] content closeParenPos = some gtPos)
    (h4 : findFrom ['<'] content (gtPos + 1) = some ltPos)
    (h5 : directiveResult startDate startIndex
      ((content.drop (pos + markerStr.length)).take
        (closeParenPos - (pos + markerStr.length))) = none) :
    scanStep startDate startIndex content searchPos modified =
      .cont content closeParenPos true := by
  unfold scanStep
  rw [h1]
  dsimp only
  rw [h2]
  dsimp only
  rw [h3]
  dsimp only
  rw [h4]
  dsimp only
  rw [h5]

/-- Branch characterization: a successfully applied directive; the rendered
string is spliced strictly between the `>` and the `<`, and the cursor moves
to just after the inserted text. -/
theorem scanStep_eq_cont_success {startDate : Date} {startIndex : Int}
    {content newDateStr : List Char} (searchPos pos closeParenPos gtPos ltPos : Nat)
    {modified : Bool}
    (h1 : findFrom markerStr content searchPos = some pos)
    (h2 : findFrom [')'] content (pos + markerStr.length) = some closeParenPos)
    (h3 : findFrom ['>'] content closeParenPos = some gtPos)
    (h4 : findFrom ['<'] content (gtPos + 1) = some ltPos)
    (h5 : directiveResult startDate startIndex
      ((content.drop (pos + markerStr.length)).take
        (closeParenPos - (pos + markerStr.length))) = some newDateStr) :
    scanStep startDate startIndex content searchPos modified =
      .cont (content.take (gtPos + 1) ++ newDateStr ++ content.drop ltPos)
        (gtPos + 1 + newDateStr.length) true := by
  unfold scanStep
  rw [h1]
  dsimp only
  rw [h2]
  dsimp only
  rw [h3]
  dsimp only
  rw [h4]
  dsimp only
  rw [h5]

/-! ### Claim C1 (termination of the directive scan on malformed input)

The source sets `searchPos` to the marker position in the loop condition and
the three malformed-case `continue` statements (missing `)`, missing `>`,
missing `<`; lines 229, 234, 238) do not advance it, so `content.find`
re-finds the same marker and the loop body repeats identically forever.
The claim asserts the scan always advances and terminates; the code's own
comments ("Malformed, skip", "Advance search position to avoid infinite
loop") show the intent the claim describes, so this is a code bug. -/

theorem scanRun_of_selfLoop {startDate : Date} {startIndex : Int}
    {c : List Char}
    (h : ∀ md : Bool, scanStep startDate startIndex c 0 md = .cont c 0 true) :
    ∀ fuel : Nat, processContent startDate startIndex c fuel = none := by
  intro fuel
  exact scanRun_stuck h fuel false

/-- C1: the scan loop of `processFile` does NOT terminate on a buffer whose
`DateReplace(` occurrence is malformed.  For each of the three malformed
shapes (no `)` after the marker, no `>` after the `)`, no `<` after the `>`),
the loop state repeats identically, so no amount of fuel makes the loop
exit: the source spins forever, contrary to the claim that the scan
advances past the occurrence. -/
theorem c1_malformed_scan_never_terminates :
    ∀ (startDate : Date) (startIndex : Int) (fuel : Nat),
      processContent startDate startIndex "DateReplace(".toList fuel = none ∧
      processContent startDate startIndex "DateReplace(D)".toList fuel = none ∧
      processContent startDate startIndex "DateReplace(D)> x".toList fuel = none := by
  intro startDate startIndex fuel
  refine ⟨?_, ?_, ?_⟩
  · exact scanRun_of_selfLoop
      (fun md => scanStep_eq_cont_noParen 0 0 (by decide) (by decide)) fuel
  · exact scanRun_of_selfLoop
      (fun md => scanStep_eq_cont_noGt 0 0 13 (by decide) (by decide) (by decide))
      fuel
  · exact scanRun_of_selfLoop
      (fun md => scanStep_eq_cont_noLt 0 0 13 14 (by decide) (by decide) (by decide)
        (by decide)) fuel

/-! ### Claim C2 (the longest-first token order prevents corruption)

False on the code: replacement values themselves contain later tokens.  The
`MM` pass inserts the full month name, and for March the later single-letter
`M` pass finds the capital `M` of `"March"` and rewrites it to the
abbreviation `"Mar"`, corrupting the text to `"Mararch"`.  The code comment
"LONGEST first to avoid substring conflicts" and the spec state the intended
property, so this is a code bug.  (November/December likewise collide with
the `N`/`D` passes, and `"Monday"` from `NN` collides with `M`.) -/

/-- C2: evaluating `formatDate` on the very template named by the claim,
`"YYYY-MM-DD"`, at the normalized date 2024-03-05, yields the corrupted
string `"2024-Mararch-05"`: the single-letter `M` pass rewrote a character
belonging to the value `"March"` substituted by the earlier `MM` pass. -/
theorem c2_single_letter_pass_corrupts_month_name :
    formatDate ⟨2024, 3, 5⟩ "YYYY-MM-DD".toList = "2024-Mararch-05".toList ∧
    ValidDate ⟨2024, 3, 5⟩ := by
  constructor <;> decide

/-! ### Claim C4 (addDays round trip) -/

/-- C4: for every valid normalized base date and every integer offset,
`addDays` by the offset followed by `addDays` by its negation returns the
original date. -/
theorem c4_addDays_roundTrip (dt : Date) (o : Int) (h : ValidDate dt) :
    addDays (addDays dt o) (-o) = dt := by
  obtain ⟨hm1, hm2, hd1, hd2⟩ := h
  have H1 : NormX dt.year dt.month (dt.day + o) (addDays dt o) :=
    normX_normalizeDate _ _ _
  have H2 : NormX (addDays dt o).year (addDays dt o).month
      ((addDays dt o).day + -o) (addDays (addDays dt o) (-o)) :=
    normX_normalizeDate _ _ _
  have H3 := (normX_shift H1 hm1 hm2 (-o) (addDays (addDays dt o) (-o))).mp H2
  have harith : dt.day + o + -o = dt.day := by ring
  rw [harith] at H3
  have H0 : NormX dt.year dt.month dt.day dt :=
    NormX.inRange dt.year dt.month dt.day hd1 hd2
  exact normX_det H3 H0

/-- Witness for C4 at a concrete input: base date 01/15/2024 with offset
1000 and back. -/
theorem c4_addDays_roundTrip_witness :
    ValidDate ⟨2024, 1, 15⟩ ∧
    addDays (addDays ⟨2024, 1, 15⟩ 1000) (-1000) = ⟨2024, 1, 15⟩ :=
  ⟨by decide, c4_addDays_roundTrip ⟨2024, 1, 15⟩ 1000 (by decide)⟩

/-- A `done` result means the marker was not found. -/
theorem scanStep_done_marker_none {startDate : Date} {startIndex : Int}
    {content : List Char} {searchPos : Nat} {modified : Bool}
    {c : List Char} {m : Bool}
    (h : scanStep startDate startIndex content searchPos modified = .done c m) :
    findFrom markerStr content searchPos = none := by
  unfold scanStep at h
  split at h
  · assumption
  · dsimp only at h
    split at h
    · cases h
    · split at h
      · cases h
      · split at h
        · cases h
        · split at h
          · cases h
          · cases h

/-! ### Claim C3 (persist only when a directive was applied)

False on the code: `modified = true` is executed as soon as the marker is
found (line 226), before any delimiter or day-number check, so a buffer in
which every occurrence is skipped still reports `modified` and is rewritten
(with identical bytes).  The spec itself flags this in its section 9 open
question.  The nearby true statement: the file is rewritten exactly when at
least one marker occurrence was found, applied or not. -/

/-- C3 counterexample: a buffer whose only marker occurrence is skipped
(unparsable day number `abc`), yet the completed scan returns the buffer
unchanged with `modified = true`, so `processFile` rewrites the file.  The
claim asserts such a buffer is not rewritten. -/
theorem c3_skipped_occurrence_still_persists :
    processContent ⟨2024, 1, 15⟩ 0 "DateReplace(D, abc)> x <".toList 2 =
      some ("DateReplace(D, abc)> x <".toList, true) := by
  decide

/-- C3 amended: whenever the scan loop completes, the buffer is reported
modified (and hence rewritten by line 290) if a marker occurrence was found
at the start of the scan — marker presence alone sets the flag, whether or
not any directive was applied. -/
theorem c3_amended_marker_presence_persists
    (startDate : Date) (startIndex : Int) (content : List Char)
    (fuel p : Nat) (c : List Char)
    (h1 : findFrom markerStr content 0 = some p) :
    processContent startDate startIndex content fuel ≠ some (c, false) := by
  intro h2
  unfold processContent at h2
  cases fuel with
  | zero => simp [scanRun] at h2
  | succ f =>
    unfold scanRun at h2
    split at h2
    · rename_i c2 m2 heq
      have hnone := scanStep_done_marker_none heq
      rw [h1] at hnone
      cases hnone
    · rename_i c2 sp2 m2 heq
      have hm2 : m2 = true := scanStep_cont_modified heq
      subst hm2
      have := scanRun_modified_invariant h2
      simp at this

/-- Witness for the amended C3 at the counterexample buffer. -/
theorem c3_amended_witness :
    findFrom markerStr "DateReplace(D, abc)> x <".toList 0 = some 0 ∧
    processContent ⟨2024, 1, 15⟩ 0 "DateReplace(D, abc)> x <".toList 2 ≠
      some ("DateReplace(D, abc)> x <".toList, false) :=
  ⟨by decide, c3_amended_marker_presence_persists ⟨2024, 1, 15⟩ 0 _ 2 0 _ (by decide)⟩

/-! ### Claim C5 (buffer without marker is unchanged and unmodified) -/

/-- C5: a buffer containing no occurrence of `DateReplace(` is returned
unchanged by the scan with `modified = false`, so `processFile` does not
rewrite the file (line 290 guards the write with `modified`). -/
theorem c5_no_marker_buffer_unchanged
    (startDate : Date) (startIndex : Int) (content : List Char) (fuel : Nat)
    (h : hasMarkerOccurrence content = false) :
    processContent startDate startIndex content (fuel + 1) =
      some (content, false) := by
  have hf : findFrom markerStr content 0 = none := by
    cases hc : findFrom markerStr content 0 with
    | none => rfl
    | some i =>
      have := hasMarkerOccurrence_of_find hc
      rw [h] at this
      cases this
  unfold processContent scanRun
  rw [scanStep_eq_done hf]

/-- Witness for C5 on a concrete marker-free buffer. -/
theorem c5_no_marker_buffer_unchanged_witness :
    hasMarkerOccurrence "<p>hello DateReplace but no paren</p>".toList = false ∧
    processContent ⟨2024, 1, 15⟩ 0
      "<p>hello DateReplace but no paren</p>".toList 1 =
      some ("<p>hello DateReplace but no paren</p>".toList, false) :=
  ⟨by decide, c5_no_marker_buffer_unchanged ⟨2024, 1, 15⟩ 0 _ 0 (by decide)⟩

/-! ### Claim C6 (worked example: DateReplace(MM DD, YYYY, 5)) -/

/-- C6: with base date 01/15/2024 (a Monday, `wdayOf = 1`) and startIndex 1,
the directive `DateReplace(MM DD, YYYY, 5)` splits on the last comma (index
11 of the argument text) into template `"MM DD, YYYY"` and day part `" 5"`,
the final offset is 5 - 1 = 4 giving target date 01/19/2024 (a Friday,
`wdayOf = 5`), the rendered replacement is `"January 19, 2024"`, and the
full scan splices it into the target span. -/
theorem c6_example_directive_renders_january_19 :
    rfindChar ',' "MM DD, YYYY, 5".toList = some 11 ∧
    stoiModel " 5".toList = some 5 ∧
    wdayOf 2024 1 15 = 1 ∧
    addDays ⟨2024, 1, 15⟩ (5 - 1) = ⟨2024, 1, 19⟩ ∧
    wdayOf 2024 1 19 = 5 ∧
    formatDate ⟨2024, 1, 19⟩ "MM DD, YYYY".toList = "January 19, 2024".toList ∧
    processContent ⟨2024, 1, 15⟩ 1 "DateReplace(MM DD, YYYY, 5)>OLD</p>".toList 2 =
      some ("DateReplace(MM DD, YYYY, 5)>January 19, 2024</p>".toList, true) := by
  refine ⟨?_, ?_, ?_, ?_, ?_, ?_, ?_⟩ <;> decide

/-! ### Claim C7 (directive without a comma resolves to the base date) -/

/-- C7: when the raw argument text contains no comma, the entire argument
text is the format template and the day number defaults to `startIndex`, so
the final offset is `startIndex - startIndex = 0` and the directive renders
the base date itself (through the usual trim). -/
theorem c7_no_comma_renders_base_date
    (startDate : Date) (startIndex : Int) (argsStr : List Char)
    (h1 : ',' ∉ argsStr) (h2 : ValidDate startDate) :
    directiveResult startDate startIndex argsStr =
      some (formatDate startDate (trimFormat argsStr)) := by
  unfold directiveResult
  rw [rfindChar_eq_none h1]
  unfold renderDirective
  rw [sub_self, addDays_zero_of_valid h2]

/-- Witness for C7: the spec's own example, base date 08/26/2024 with
startIndex 0 and directive `DateReplace(Y)`, renders `"2024"`. -/
theorem c7_no_comma_renders_base_date_witness :
    ',' ∉ "Y".toList ∧ ValidDate ⟨2024, 8, 26⟩ ∧
    directiveResult ⟨2024, 8, 26⟩ 0 "Y".toList = some "2024".toList :=
  ⟨by decide, by decide,
    (c7_no_comma_renders_base_date ⟨2024, 8, 26⟩ 0 "Y".toList (by decide)
      (by decide)).trans (by decide)⟩

/-! ### Claim C8 (unparsable day number: warn, skip, keep scanning) -/

/-- C8: when all delimiters of an occurrence are present but the day part
fails to parse (the `catch` around `std::stoi`, where the warning is
printed), the buffer is left untouched, the scan cursor is set to the
closing parenthesis — which lies beyond the whole marker text, and from
which this occurrence's marker can never be re-found since the character
there is `)` — and the loop continues, so directives later in the buffer
are still processed. -/
theorem c8_parse_failure_skips_and_scan_continues
    (startDate : Date) (startIndex : Int) (content : List Char)
    (searchPos pos closeParenPos gtPos ltPos : Nat) (modified : Bool)
    (h1 : findFrom markerStr content searchPos = some pos)
    (h2 : findFrom [')'] content (pos + markerStr.length) = some closeParenPos)
    (h3 : findFrom ['>'] content closeParenPos = some gtPos)
    (h4 : findFrom ['<'] content (gtPos + 1) = some ltPos)
    (h5 : directiveResult startDate startIndex
      ((content.drop (pos + markerStr.length)).take
        (closeParenPos - (pos + markerStr.length))) = none) :
    scanStep startDate startIndex content searchPos modified =
      .cont content closeParenPos true ∧
    pos + markerStr.length ≤ closeParenPos ∧
    (∀ q, findFrom markerStr content closeParenPos = some q →
      closeParenPos < q) := by
  obtain ⟨hcp1, hcp2, hcp3⟩ := findFrom_some h2
  refine ⟨scanStep_eq_cont_parseFail _ _ _ _ _ h1 h2 h3 h4 h5, hcp1, ?_⟩
  intro q hq
  obtain ⟨hq1, hq2, hq3⟩ := findFrom_some hq
  rcases Nat.lt_or_ge closeParenPos q with hlt | hge
  · exact hlt
  · have hqe : q = closeParenPos := Nat.le_antisymm hge hq1
    subst hqe
    have e1 : (content.drop q)[0]? = some ')' := isPrefixOf_head hcp3
    have hm : markerStr = 'D' :: "ateReplace(".toList := by decide
    rw [hm] at hq3
    have e2 : (content.drop q)[0]? = some 'D' := isPrefixOf_head hq3
    rw [e1] at e2
    cases e2

/-- Witness for C8: a buffer with a bad first directive `DateReplace(D, abc)`
followed by a good one `DateReplace(D, 7)`; the step skips the first
occurrence in place, the next marker found from the new cursor is strictly
past the closing parenthesis, and the full run still applies the second
directive (base 01/15/2024, startIndex 1, offset 7-1=6, rendering "21"). -/
theorem c8_parse_failure_skips_witness :
    scanStep ⟨2024, 1, 15⟩ 1
      "DateReplace(D, abc)> x <DateReplace(D, 7)> y </p>".toList 0 false =
      .cont "DateReplace(D, abc)> x <DateReplace(D, 7)> y </p>".toList 18 true ∧
    (18 : Nat) < 24 ∧
    processContent ⟨2024, 1, 15⟩ 1
      "DateReplace(D, abc)> x <DateReplace(D, 7)> y </p>".toList 3 =
      some ("DateReplace(D, abc)> x <DateReplace(D, 7)>21</p>".toList, true) :=
  ⟨(c8_parse_failure_skips_and_scan_continues ⟨2024, 1, 15⟩ 1
      "DateReplace(D, abc)> x <DateReplace(D, 7)> y </p>".toList 0 0 18 19 23
      false (by decide) (by decide) (by decide) (by decide) (by decide)).1,
   (c8_parse_failure_skips_and_scan_continues ⟨2024, 1, 15⟩ 1
      "DateReplace(D, abc)> x <DateReplace(D, 7)> y </p>".toList 0 0 18 19 23
      false (by decide) (by decide) (by decide) (by decide) (by decide)).2.2
      24 (by decide),
   by decide⟩

/-! ### Claim C9 (the splice is a frame: only the target span is rewritten) -/

/-- C9: for a successfully applied directive, the new buffer is exactly the
old buffer with the text strictly between the first `>` after the closing
parenthesis (position `gtPos`) and the next `<` (position `ltPos`) replaced
by the rendered string: every position up to and including `gtPos` — which
covers the marker and argument text, since `pos + markerStr.length ≤
closeParenPos ≤ gtPos` — is unchanged, the inserted span is the rendered
string, and the suffix from the `<` on is unchanged (shifted). -/
theorem c9_splice_rewrites_only_target_span
    (startDate : Date) (startIndex : Int) (content newDateStr : List Char)
    (searchPos pos closeParenPos gtPos ltPos : Nat) (modified : Bool)
    (h1 : findFrom markerStr content searchPos = some pos)
    (h2 : findFrom [')'] content (pos + markerStr.length) = some closeParenPos)
    (h3 : findFrom ['>'] content closeParenPos = some gtPos)
    (h4 : findFrom ['<'] content (gtPos + 1) = some ltPos)
    (h5 : directiveResult startDate startIndex
      ((content.drop (pos + markerStr.length)).take
        (closeParenPos - (pos + markerStr.length))) = some newDateStr) :
    scanStep startDate startIndex content searchPos modified =
      .cont (content.take (gtPos + 1) ++ newDateStr ++ content.drop ltPos)
        (gtPos + 1 + newDateStr.length) true ∧
    pos + markerStr.length ≤ closeParenPos ∧ closeParenPos ≤ gtPos ∧
    gtPos + 1 ≤ ltPos ∧ ltPos < content.length ∧
    (∀ i, i ≤ gtPos →
      (content.take (gtPos + 1) ++ newDateStr ++ content.drop ltPos)[i]? =
        content[i]?) ∧
    (∀ j, j < newDateStr.length →
      (content.take (gtPos + 1) ++ newDateStr ++ content.drop ltPos)[gtPos + 1 + j]? =
        newDateStr[j]?) ∧
    (∀ j,
      (content.take (gtPos + 1) ++ newDateStr ++
        content.drop ltPos)[gtPos + 1 + newDateStr.length + j]? =
        content[ltPos + j]?) := by
  obtain ⟨hb2, hb2', -⟩ := findFrom_some h2
  obtain ⟨hb3, hb3', -⟩ := findFrom_some h3
  obtain ⟨hb4, hb4', -⟩ := findFrom_some h4
  have hlen1 : (markerStr : List Char).length = 12 := by decide
  have hgt_lt : gtPos + 1 ≤ content.length := by simp at hb4'; omega
  have htake : (content.take (gtPos + 1)).length = gtPos + 1 := by
    rw [List.length_take]; omega
  have htakeApp : (content.take (gtPos + 1) ++ newDateStr).length =
      gtPos + 1 + newDateStr.length := by
    rw [List.length_append, htake]
  refine ⟨scanStep_eq_cont_success _ _ _ _ _ h1 h2 h3 h4 h5,
    hb2, hb3, hb4, by simp at hb4'; omega, ?_, ?_, ?_⟩
  · intro i hi
    rw [List.getElem?_append, if_pos (by omega)]
    rw [List.getElem?_append, if_pos (by omega)]
    rw [List.getElem?_take, if_pos (by omega)]
  · intro j hj
    rw [List.getElem?_append, if_pos (by omega)]
    rw [List.getElem?_append, if_neg (by omega)]
    rw [htake]
    congr 1
    omega
  · intro j
    rw [List.getElem?_append, if_neg (by omega)]
    rw [List.getElem?_drop]
    rw [htakeApp]
    congr 1
    omega

/-- Witness for C9: `DateReplace(D, 3)>x</a>` with base 01/15/2024 and
startIndex 0 renders "18" (offset 3, 2024-01-18) and splices it in place of
`x`; the marker text at position 0 is untouched. -/
theorem c9_splice_rewrites_only_target_span_witness :
    scanStep ⟨2024, 1, 15⟩ 0 "DateReplace(D, 3)>x</a>".toList 0 false =
      .cont "DateReplace(D, 3)>18</a>".toList 20 true ∧
    "DateReplace(D, 3)>18</a>".toList[0]? = "DateReplace(D, 3)>x</a>".toList[0]? :=
  ⟨((c9_splice_rewrites_only_target_span ⟨2024, 1, 15⟩ 0
      "DateReplace(D, 3)>x</a>".toList "18".toList 0 0 16 17 19 false
      (by decide) (by decide) (by decide) (by decide) (by decide)).1).trans
      (by decide),
   by decide⟩

/-! ### Claim C10 (day-part parsing)

The claim says a day part with a leading integer always parses.  False:
`std::stoi` also throws `out_of_range` when the value does not fit `int`,
and that exception is caught by the same handler, taking the warning path.
The nearby true statement adds the `int`-range side condition. -/

/-- C10 counterexample: the day part `" 9999999999"` begins, after
whitespace, with decimal digits, yet `stoiModel` fails (`std::stoi` throws
`out_of_range`: 9999999999 > 2^31 - 1), so a directive carrying it takes the
warning/skip path, contrary to the claim. -/
theorem c10_leading_integer_can_still_fail :
    " 9999999999".toList = ' ' :: "9999999999".toList ∧
    "9999999999".toList.all Char.isDigit = true ∧
    stoiModel " 9999999999".toList = none ∧
    directiveResult ⟨2024, 1, 15⟩ 0 "D, 9999999999".toList = none := by
  refine ⟨?_, ?_, ?_, ?_⟩ <;> decide

theorem digit_not_space {c : Char} (h : c.isDigit = true) :
    isSpaceChar c = false := by
  by_contra hcon
  have hs : isSpaceChar c = true := by
    revert hcon; cases isSpaceChar c <;> simp
  unfold isSpaceChar at hs
  simp only [Bool.or_eq_true, beq_iff_eq] at hs
  rcases hs with ((((h1 | h1) | h1) | h1) | h1) | h1 <;>
    (subst h1; exact absurd h (by decide))

theorem digit_beq_false {c d : Char} (h : c.isDigit = true)
    (hd : d.isDigit = false) : (c == d) = false := by
  simp only [beq_eq_false_iff_ne, ne_eq]
  intro he
  subst he
  rw [h] at hd
  cases hd

theorem dropWhile_append_all {p : Char → Bool} {w t : List Char}
    (hw : ∀ c ∈ w, p c = true) :
    (w ++ t).dropWhile p = t.dropWhile p := by
  induction w with
  | nil => rfl
  | cons a w' ih =>
    have ha : p a = true := hw a (List.mem_cons_self a w')
    simp only [List.cons_append, List.dropWhile_cons, ha, if_true]
    exact ih (fun c hc => hw c (List.mem_cons_of_mem a hc))

theorem dropWhile_head_false {p : Char → Bool} {t : List Char}
    (h : ∀ c, t.head? = some c → p c = false) :
    t.dropWhile p = t := by
  cases t with
  | nil => rfl
  | cons a t' =>
    have := h a rfl
    simp [List.dropWhile_cons, this]

theorem takeWhile_append_all {p : Char → Bool} {ds r : List Char}
    (hd : ∀ c ∈ ds, p c = true)
    (hr : ∀ c, r.head? = some c → p c = false) :
    (ds ++ r).takeWhile p = ds := by
  induction ds with
  | nil =>
    cases r with
    | nil => rfl
    | cons a r' =>
      have := hr a rfl
      simp [List.takeWhile_cons, this]
  | cons a ds' ih =>
    have ha : p a = true := hd a (List.mem_cons_self a ds')
    simp only [List.cons_append, List.takeWhile_cons, ha, if_true]
    rw [ih (fun c hc => hd c (List.mem_cons_of_mem a hc))]

/-- C10 amended: the day-part parse succeeds exactly as the claim says —
leading C whitespace, an optional sign, a nonempty run of decimal digits,
trailing non-numeric characters ignored — provided additionally that the
signed value fits the 32-bit `int` range; beyond it `std::stoi` throws
`out_of_range` and the same warning path is taken. -/
theorem c10_amended_parse_succeeds_within_int_range
    (w sgn ds r : List Char)
    (hw : ∀ c ∈ w, isSpaceChar c = true)
    (hsgn : sgn = [] ∨ sgn = ['+'] ∨ sgn = ['-'])
    (hds : ds ≠ [])
    (hdig : ∀ c ∈ ds, c.isDigit = true)
    (hr : ∀ c, r.head? = some c → c.isDigit = false)
    (hlo : -(2 ^ 31) ≤ (if sgn = ['-'] then -1 else 1) * (digitsToNat ds : Int))
    (hhi : (if sgn = ['-'] then -1 else 1) * (digitsToNat ds : Int) ≤ 2 ^ 31 - 1) :
    stoiModel (w ++ (sgn ++ (ds ++ r))) =
      some ((if sgn = ['-'] then -1 else 1) * (digitsToNat ds : Int)) := by
  obtain ⟨d0, ds', rfl⟩ : ∃ d0 ds', ds = d0 :: ds' := by
    cases ds with
    | nil => exact absurd rfl hds
    | cons a t => exact ⟨a, t, rfl⟩
  have hd0 : d0.isDigit = true := hdig d0 (List.mem_cons_self d0 ds')
  have hdropw : (w ++ (sgn ++ (d0 :: ds' ++ r))).dropWhile isSpaceChar =
      sgn ++ (d0 :: ds' ++ r) := by
    rw [dropWhile_append_all hw]
    apply dropWhile_head_false
    intro c hc
    rcases hsgn with rfl | rfl | rfl
    · simp only [List.nil_append, List.cons_append, List.head?_cons,
        Option.some_inj] at hc
      subst hc
      exact digit_not_space hd0
    · simp only [List.cons_append, List.head?_cons, Option.some_inj] at hc
      subst hc
      decide
    · simp only [List.cons_append, List.head?_cons, Option.some_inj] at hc
      subst hc
      decide
  have htw' : List.takeWhile Char.isDigit (d0 :: (ds' ++ r)) = d0 :: ds' := by
    rw [← List.cons_append]
    exact takeWhile_append_all hdig hr
  unfold stoiModel
  rw [hdropw]
  rcases hsgn with rfl | rfl | rfl
  · have hlo1 : -(2 ^ 31) ≤ (digitsToNat (d0 :: ds') : Int) := by simpa using hlo
    have hhi1 : (digitsToNat (d0 :: ds') : Int) ≤ 2 ^ 31 - 1 := by simpa using hhi
    simp only [List.nil_append, List.cons_append, List.head?_cons,
      show (d0 == '-') = false from digit_beq_false hd0 (by decide),
      show (d0 == '+') = false from digit_beq_false hd0 (by decide),
      Bool.or_false, Bool.false_or, Bool.false_eq_true, if_false]
    rw [htw']
    simp only [List.isEmpty_cons, Bool.false_eq_true, if_false]
    rw [if_neg (by rintro (hc | hc) <;> omega)]
    simp
  · have hlo1 : -(2 ^ 31) ≤ (digitsToNat (d0 :: ds') : Int) := by simpa using hlo
    have hhi1 : (digitsToNat (d0 :: ds') : Int) ≤ 2 ^ 31 - 1 := by simpa using hhi
    simp only [List.cons_append, List.head?_cons,
      show (('+' : Char) == '-') = false from by decide,
      show (('+' : Char) == '+') = true from by decide,
      Bool.false_or, Bool.or_true, Bool.false_eq_true,
      if_true, if_false, List.tail_cons, List.nil_append]
    rw [htw']
    simp only [List.isEmpty_cons, Bool.false_eq_true, if_false]
    rw [if_neg (by rintro (hc | hc) <;> omega)]
    simp
  · have hlo1 : -(2 ^ 31) ≤ -(digitsToNat (d0 :: ds') : Int) := by
      simpa using hlo
    have hhi1 : -(digitsToNat (d0 :: ds') : Int) ≤ 2 ^ 31 - 1 := by
      simpa using hhi
    simp only [List.cons_append, List.head?_cons,
      show (('-' : Char) == '-') = true from by decide,
      Bool.true_or, if_true, List.tail_cons, List.nil_append]
    rw [htw']
    simp only [List.isEmpty_cons, Bool.false_eq_true, if_false]
    rw [if_neg (by rintro (hc | hc) <;> omega)]

/-- Witness for the amended C10: the day part `" 5abc"` (whitespace, no
sign, leading digit, non-numeric tail) parses to 5. -/
theorem c10_amended_parse_witness :
    stoiModel " 5abc".toList = some 5 := by
  have h := c10_amended_parse_succeeds_within_int_range
    [' '] [] ['5'] "abc".toList
    (by decide) (Or.inl rfl) (by decide) (by decide) (by decide)
    (by decide) (by decide)
  simpa using h
